import Mathlib

/-!
Verification of the batch-translation workflow (notebook 90,
"Batch Translation Demo — Health-Claim Mini-Workflow").

Python strings are modeled as `List Char` (`Str` below); Python `dict`
values holding request/response records are modeled as Lean structures.
Fallible operations (`int(...)`, `json.loads`, unpacking a `split`) are
modeled with `Option`/`Except`. The external service (file upload, batch
creation, status queries, output download) is modeled by oracle functions
passed in as parameters; everything the notebook itself computes is
embedded as executable Lean definitions.
-/

/-- Python strings, modeled as lists of characters. -/
abbrev Str := List Char

/-! ### Decimal rendering of integers (Python f-string / `str`) -/

/-- The decimal digit character for `d % 10` (so `digitChar 3 = '3'`). -/
def digitChar (d : Nat) : Char := Char.ofNat (48 + d % 10)

/-- Decimal digits of `n`, most significant first, computed with explicit
fuel (`fuel > n` suffices) so the definition is structurally recursive. -/
def natDigitsAux : Nat → Nat → List Char
  | 0, _ => []
  | fuel + 1, n =>
    if n < 10 then [digitChar n]
    else natDigitsAux fuel (n / 10) ++ [digitChar (n % 10)]

/-- Decimal rendering of a natural number, e.g. `natDigits 40 = "40"`.
Models how a Python f-string renders a non-negative `int`. -/
def natDigits (n : Nat) : Str := natDigitsAux (n + 1) n

/-- Decimal rendering of a Python `int` (possibly negative). -/
def intStr (i : Int) : Str :=
  if i < 0 then '-' :: natDigits i.natAbs else natDigits i.toNat

/-- Numeric value of a decimal digit character. -/
def digitVal (c : Char) : Nat := c.toNat - 48

/-- Value of a string of decimal digits, most significant first. -/
def digitsVal (s : Str) : Nat := s.foldl (fun a c => a * 10 + digitVal c) 0

/-! ### Python `str.strip` and `int(...)` -/

/-- Python `str.strip()`: remove leading and trailing whitespace. -/
def pyStrip (s : Str) : Str :=
  ((s.dropWhile Char.isWhitespace).reverse.dropWhile Char.isWhitespace).reverse

/-- Value of a nonempty all-digit string, `none` otherwise. -/
def digitsOnly (s : Str) : Option Nat :=
  if s ≠ [] ∧ s.all Char.isDigit then some (digitsVal s) else none

/-- Python `int(s)`: strips surrounding whitespace, accepts an optional
sign followed by decimal digits, raises (`none`) otherwise.  (Python
additionally allows `_` separators between digits, but every string this
program feeds to `int` comes out of `split("_")` and so contains no
underscore.) -/
def pyInt (s : Str) : Option Int :=
  match pyStrip s with
  | '+' :: ds => (digitsOnly ds).map (fun n => (n : Int))
  | '-' :: ds => (digitsOnly ds).map (fun n => -(n : Int))
  | ds => (digitsOnly ds).map (fun n => (n : Int))

/-! ### Python `str.split(sep)` and `str.replace(old, new)` -/

/-- Python `s.split(sep)` for a one-character separator:
`"a_b".split("_") = ["a", "b"]`, `"".split("_") = [""]`. -/
def splitOnChar (sep : Char) : Str → List Str
  | [] => [[]]
  | c :: rest =>
    if c = sep then [] :: splitOnChar sep rest
    else
      match splitOnChar sep rest with
      | [] => [[c]]
      | h :: t => (c :: h) :: t

/-- One left-to-right non-overlapping replacement pass of the pattern
`p :: ps` by `repl`, with explicit fuel (`fuel ≥ s.length` suffices) so
the definition is structurally recursive. -/
def pyReplaceAux (p : Char) (ps repl : Str) : Nat → Str → Str
  | _, [] => []
  | 0, s => s
  | fuel + 1, c :: rest =>
    if (p :: ps).isPrefixOf (c :: rest) then
      repl ++ pyReplaceAux p ps repl fuel (rest.drop ps.length)
    else c :: pyReplaceAux p ps repl fuel rest

/-- Python `s.replace(pat, repl)` for the nonempty pattern `p :: ps`:
replaces every (left-to-right, non-overlapping) occurrence. -/
def pyReplace (p : Char) (ps repl s : Str) : Str :=
  pyReplaceAux p ps repl s.length s

/-- `true` iff the pattern `p :: ps` occurs as a contiguous substring. -/
def containsSub (p : Char) (ps : Str) : Str → Bool
  | [] => false
  | c :: rest => (p :: ps).isPrefixOf (c :: rest) || containsSub p ps rest

/-! ### Data model: input rows and request records (§1–§3 of the notebook) -/

/-- One row of `df_claims` (`claim_id`, `Claim`, `Nutrient`, `Relationship`).
In the source `claim_id` is a Python non-negative `int` column. -/
structure ClaimRow where
  claim_id : Nat
  Claim : Str
  Nutrient : Str
  Relationship : Str
deriving DecidableEq

/-- The `body` dict of a batch request line.  The fixed
`response_format` JSON-schema literal is identical for every request and
carries no per-request information, so it is represented by its schema
name only. -/
structure RequestBody where
  model : Str
  messages : List (Str × Str)
  temperature : Nat
  max_tokens : Nat
  response_format_name : Str
deriving DecidableEq

/-- One JSONL batch request line (a `RequestRecord` in the spec). -/
structure RequestRecord where
  custom_id : Str
  method : Str
  url : Str
  body : RequestBody
deriving DecidableEq

/-- The system prompt (`textwrap.dedent(...).strip()` of the literal). -/
def SYSTEM_PROMPT : Str :=
  ("You are a certified medical-translation specialist.\n" ++
   "Translate the ENGLISH text below into the target language.\n" ++
   "Preserve technical terms if no local equivalent exists.\n" ++
   "Return JSON strictly matching the schema keys provided.").data

/-- The identifier composition `f"claim\x7brow.claim_id\x7d_\x7btarget_lang\x7d"`
from `make_jsonl_line`. -/
def composeId (claim_id : Nat) (target_lang : Str) : Str :=
  "claim".data ++ natDigits claim_id ++ '_' :: target_lang

/-- `make_jsonl_line(row, target_lang)`: convert one (claim row, language)
pair into a batch-ready request record. -/
def make_jsonl_line (row : ClaimRow) (target_lang : Str) : RequestRecord :=
  let custom_id := composeId row.claim_id target_lang
  let user_prompt :=
    "Target language: ".data ++ target_lang ++
    "\nClaim: ".data ++ row.Claim ++
    "\nNutrient substance: ".data ++ row.Nutrient ++
    "\nHealth relationship: ".data ++ row.Relationship
  { custom_id := custom_id
    method := "POST".data
    url := "/v1/chat/completions".data
    body :=
      { model := "gpt-4o-mini".data
        messages := [("system".data, SYSTEM_PROMPT), ("user".data, user_prompt)]
        temperature := 0
        max_tokens := 512
        response_format_name := "claim_translation_v1".data } }

/-- The hard-coded demo dataset `df_claims` (3 English claims). -/
def df_claims : List ClaimRow :=
  [⟨1, "Calcium contributes to normal bone health.".data,
      "Calcium".data, "Bone health".data⟩,
   ⟨2, "DHA intake contributes to the normal function of the brain.".data,
      "Docosahexaenoic acid (DHA)".data, "Brain function".data⟩,
   ⟨3, "Plant sterols have been shown to lower blood cholesterol.".data,
      "Plant sterols".data, "Blood cholesterol".data⟩]

/-- `TARGET_LANGS = ["Spanish", "German", "Japanese"]`. -/
def TARGET_LANGS : List Str := ["Spanish".data, "German".data, "Japanese".data]

/-- The JSONL build loop (§4 of the notebook): one request line per
`(row, lang)` pair, rows outermost, languages innermost. -/
def buildJsonl (rows : List ClaimRow) (target_langs : List Str) : List RequestRecord :=
  rows.flatMap (fun row => target_langs.map (fun lang => make_jsonl_line row lang))

/-! ### Chunker (§5 of the notebook) -/

/-- The `NUM_PARTS` chunker.  With `numParts = 1` the original line list
is reused unchanged; otherwise the lines are cut into `numParts` slices
of fixed stride `len(lines) // NUM_PARTS + 1`
(`lines[i*chunk:(i+1)*chunk]` for `i in range(NUM_PARTS)`). -/
def chunkParts (numParts : Nat) (lines : List Str) : List (List Str) :=
  if numParts = 1 then [lines]
  else
    let chunk := lines.length / numParts + 1
    (List.range numParts).map (fun i => (lines.drop (i * chunk)).take chunk)

/-! ### Result parsing (§8 of the notebook) -/

/-- The structured translation payload described by the strict JSON
schema `claim_translation_v1`. -/
structure Payload where
  translation_claim : Str
  translation_nutrient_substance : Str
  translation_health_relationship : Str
deriving DecidableEq, Inhabited

/-- One parsed output row appended by `parse_batch_file`
(`claim_id`, `language`, plus the payload fields). -/
structure ResultRow where
  claim_id : Int
  language : Str
  payload : Payload
deriving DecidableEq

/-- One line of a downloaded batch output file, reduced to the two pieces
`parse_batch_file` reads from it: the echoed `custom_id` and the message
content string whose JSON decoding yields the payload. -/
structure OutputLine where
  custom_id : Str
  content : Str
deriving DecidableEq

/-- `cid.replace("claim", "")`: remove every occurrence of `"claim"`. -/
def stripClaim (s : Str) : Str := pyReplace 'c' ['l', 'a', 'i', 'm'] [] s

/-- `true` iff `"claim"` occurs as a contiguous substring. -/
def hasClaimSub (s : Str) : Bool := containsSub 'c' ['l', 'a', 'i', 'm'] s

/-- The identifier decomposition performed by `parse_batch_file`:
`claim_id, lang = cid.replace("claim", "").split("_")` followed by
`int(claim_id)`.  Yields `none` where Python would raise (unpacking a
split of length ≠ 2, or a non-integer first part). -/
def decomposeId (cid : Str) : Option (Int × Str) :=
  match splitOnChar '_' (stripClaim cid) with
  | [a, b] =>
    match pyInt a with
    | some n => some (n, b)
    | none => none
  | _ => none

/-- Re-run the builder's identifier composition on a decomposed pair,
rendering the parsed claim id the way the Python f-string would. -/
def recomposeId (p : Int × Str) : Str :=
  "claim".data ++ intStr p.1 ++ '_' :: p.2

/-- One line of `parse_batch_file`'s loop body, in source order: decode
the payload JSON of the line (`json.loads` of the message content,
modeled by the `decode` oracle), then decompose the `custom_id`.  Any
failure raises, modeled as `Except.error`. -/
def parseLine (decode : Str → Option Payload) (l : OutputLine) :
    Except Str ResultRow :=
  match decode l.content with
  | none => Except.error "json.loads".data
  | some p =>
    match decomposeId l.custom_id with
    | some (n, lang) => Except.ok ⟨n, lang, p⟩
    | none => Except.error "custom_id".data

/-- `parse_batch_file`: parse every line of a downloaded output file into
result rows.  An exception on any line propagates out of the whole call,
so an error anywhere yields no rows at all. -/
def parse_batch_file (decode : Str → Option Payload) :
    List OutputLine → Except Str (List ResultRow)
  | [] => Except.ok []
  | l :: rest =>
    match parseLine decode l with
    | Except.error e => Except.error e
    | Except.ok r =>
      match parse_batch_file decode rest with
      | Except.error e => Except.error e
      | Except.ok rs => Except.ok (r :: rs)

/-- A line on which `parse_batch_file` raises: its payload is not valid
JSON, or its `custom_id` does not decompose (after removing every
occurrence of `"claim"` it does not split on `"_"` into exactly two
parts with an integer first part). -/
def lineBad (decode : Str → Option Payload) (l : OutputLine) : Bool :=
  (decode l.content).isNone || (decomposeId l.custom_id).isNone

/-! ### Poller (§10(B) of the notebook) -/

/-- A batch id. -/
abbrev BatchId := Str

/-- The status string marking successful completion. -/
def completedStr : Str := "completed".data

/-- The status string marking terminal failure. -/
def failedStr : Str := "failed".data

/-- The three Python sets `PENDING`, `COMPLETED`, `FAILED` driving the
polling loop.  A Python `set` is modeled as a duplicate-free list:
`set.add` is `List.insert`, `set.remove` is `List.erase`, and the
`set(...)` constructor is `List.dedup`. -/
structure PollState where
  PENDING : List BatchId
  COMPLETED : List BatchId
  FAILED : List BatchId

/-- The body of `for bid in list(PENDING)` for one `bid`: query the
status (`q bid` models `client.batches.retrieve(bid).status`) and move
the handle to `COMPLETED` or `FAILED` when the status is terminal. -/
def pollStep (q : BatchId → Str) (st : PollState) (bid : BatchId) : PollState :=
  if q bid = completedStr then
    { st with COMPLETED := st.COMPLETED.insert bid, PENDING := st.PENDING.erase bid }
  else if q bid = failedStr then
    { st with FAILED := st.FAILED.insert bid, PENDING := st.PENDING.erase bid }
  else st

/-- One pass of the polling loop: process every id in the snapshot
`list(PENDING)` taken at the start of the pass. -/
def pollPass (q : BatchId → Str) (st : PollState) : PollState :=
  st.PENDING.foldl (pollStep q) st

/-- Initial poll state: `PENDING = set(batch_ids)`, the other two empty. -/
def initPoll (batch_ids : List BatchId) : PollState :=
  ⟨batch_ids.dedup, [], []⟩

/-- The `while PENDING:` loop, with the status oracle indexed by pass
number (`qs t` is the status function seen by pass `t`) and explicit
fuel bounding how many passes we observe.  The loop body runs only while
`PENDING` is nonempty. -/
def pollLoop (qs : Nat → BatchId → Str) : Nat → Nat → PollState → PollState
  | _, 0, st => st
  | t, fuel + 1, st =>
    if st.PENDING = [] then st else pollLoop qs (t + 1) fuel (pollPass (qs t) st)

/-- The count `len(FAILED)` printed to the operator each pass. -/
def reportFailed (st : PollState) : Nat := st.FAILED.length

/-! ### Download and aggregation (§10(C) of the notebook) -/

/-- The download-and-parse loop over `COMPLETED`: `dl bid` models
`download_output(bid)` followed by `parse_batch_file` on the downloaded
file, returning `none` when `download_output` returns `None` (batch not
ready).  Collects the per-batch tables `all_tables`. -/
def collectTables (dl : BatchId → Option (List ResultRow))
    (completed : List BatchId) : List (List ResultRow) :=
  completed.filterMap dl

/-- The error message of the empty-aggregation check. -/
def noTablesMsg : Str := "No completed batch files parsed!".data

/-- The aggregation step: `if not all_tables: raise ValueError(...)`,
otherwise `pd.concat(all_tables)` (modeled as concatenation). -/
def aggregateResults (dl : BatchId → Option (List ResultRow))
    (completed : List BatchId) : Except Str (List ResultRow) :=
  let all_tables := collectTables dl completed
  if all_tables = [] then Except.error noTablesMsg
  else Except.ok all_tables.flatten

/-! ### API key loading (the first code cell) -/

/-- The constructed API client; producing this value models running
`client = OpenAI()`, the first step that can touch the network. -/
structure OpenAIClient where
  api_key : Str
deriving DecidableEq

/-- The fatal configuration error message. -/
def missingKeyMsg : Str := "Put your API key in .env or key/openai_key.txt".data

/-- The value of `os.getenv("OPENAI_API_KEY")` after the fallback cell
ran: if the variable is unset (`none`) and `key/openai_key.txt` exists
(`key_file = some txt`), the variable is set to the stripped file text. -/
def getenvAfterFallback (env key_file : Option Str) : Option Str :=
  match env, key_file with
  | none, some txt => some (pyStrip txt)
  | e, _ => e

/-- The startup cell: apply the file fallback, raise
`ValueError(...)` when the resulting key is missing or empty (Python
`if not os.getenv(...)`), and only otherwise construct the client. -/
def startup (env key_file : Option Str) : Except Str OpenAIClient :=
  match getenvAfterFallback env key_file with
  | none => Except.error missingKeyMsg
  | some k => if k = [] then Except.error missingKeyMsg else Except.ok ⟨k⟩

/-! ### Lemmas: decimal digits -/

theorem digitChar_isDigit (d : Nat) : (digitChar d).isDigit = true := by
  unfold digitChar
  have h : d % 10 < 10 := Nat.mod_lt _ (by decide)
  set k := d % 10 with hk
  interval_cases k <;> decide

theorem digitVal_digitChar {d : Nat} (h : d < 10) :
    digitVal (digitChar d) = d := by
  unfold digitChar
  rw [Nat.mod_eq_of_lt h]
  interval_cases d <;> decide

theorem digitsVal_append_singleton (l : Str) (c : Char) :
    digitsVal (l ++ [c]) = digitsVal l * 10 + digitVal c := by
  unfold digitsVal
  rw [List.foldl_append]
  rfl

theorem digitsVal_natDigitsAux :
    ∀ fuel n, n < fuel → digitsVal (natDigitsAux fuel n) = n := by
  intro fuel
  induction fuel with
  | zero => intro n h; omega
  | succ fuel ih =>
    intro n h
    unfold natDigitsAux
    by_cases h10 : n < 10
    · rw [if_pos h10]
      have h1 := digitVal_digitChar h10
      simp [digitsVal]
      omega
    · rw [if_neg h10, digitsVal_append_singleton]
      have hdiv : n / 10 < fuel := by
        have : n / 10 < n := Nat.div_lt_self (by omega) (by decide)
        omega
      rw [ih (n / 10) hdiv, digitVal_digitChar (Nat.mod_lt _ (by decide))]
      omega

theorem digitsVal_natDigits (n : Nat) : digitsVal (natDigits n) = n :=
  digitsVal_natDigitsAux (n + 1) n (Nat.lt_succ_self n)

theorem natDigits_injective {a b : Nat} (h : natDigits a = natDigits b) :
    a = b := by
  have := congrArg digitsVal h
  rwa [digitsVal_natDigits, digitsVal_natDigits] at this

theorem isDigit_of_mem_natDigitsAux :
    ∀ fuel n c, c ∈ natDigitsAux fuel n → c.isDigit = true := by
  intro fuel
  induction fuel with
  | zero => intro n c h; simp [natDigitsAux] at h
  | succ fuel ih =>
    intro n c h
    unfold natDigitsAux at h
    by_cases h10 : n < 10
    · rw [if_pos h10] at h
      simp at h
      subst h
      exact digitChar_isDigit n
    · rw [if_neg h10] at h
      rcases List.mem_append.mp h with h1 | h1
      · exact ih _ _ h1
      · simp at h1
        subst h1
        exact digitChar_isDigit _

theorem isDigit_of_mem_natDigits {n : Nat} {c : Char}
    (h : c ∈ natDigits n) : c.isDigit = true :=
  isDigit_of_mem_natDigitsAux _ _ _ h

theorem natDigits_ne_nil (n : Nat) : natDigits n ≠ [] := by
  unfold natDigits natDigitsAux
  by_cases h10 : n < 10 <;> simp [h10]

/-- A decimal digit character is none of the special characters the
identifier format and `int(...)` care about, and is not whitespace. -/
theorem isDigit_facts {c : Char} (h : c.isDigit = true) :
    c ≠ '_' ∧ c ≠ 'c' ∧ c ≠ '+' ∧ c ≠ '-' ∧ c.isWhitespace = false := by
  refine ⟨?_, ?_, ?_, ?_, ?_⟩
  · intro h'; subst h'; exact absurd h (by decide)
  · intro h'; subst h'; exact absurd h (by decide)
  · intro h'; subst h'; exact absurd h (by decide)
  · intro h'; subst h'; exact absurd h (by decide)
  · by_cases hw : c.isWhitespace = true
    · exfalso
      simp only [Char.isWhitespace, Bool.or_eq_true, decide_eq_true_eq] at hw
      rcases hw with ((rfl | rfl) | rfl) | rfl <;> exact absurd h (by decide)
    · simpa using hw

/-! ### Lemmas: `pyStrip` and `pyInt` on digit strings -/

theorem dropWhile_eq_self_of_all {p : Char → Bool} :
    ∀ s : Str, (∀ c ∈ s, p c = false) → s.dropWhile p = s := by
  intro s h
  cases s with
  | nil => rfl
  | cons c rest =>
    have hc : p c = false := h c (List.mem_cons_self c rest)
    simp [List.dropWhile_cons, hc]

theorem pyStrip_all_digits {s : Str} (h : ∀ c ∈ s, c.isDigit = true) :
    pyStrip s = s := by
  have hw : ∀ c ∈ s, c.isWhitespace = false :=
    fun c hc => (isDigit_facts (h c hc)).2.2.2.2
  unfold pyStrip
  rw [dropWhile_eq_self_of_all s hw]
  rw [dropWhile_eq_self_of_all s.reverse (fun c hc => hw c (List.mem_reverse.mp hc))]
  exact List.reverse_reverse s

theorem pyInt_digits {s : Str} (hne : s ≠ []) (h : ∀ c ∈ s, c.isDigit = true) :
    pyInt s = some ((digitsVal s : Nat) : Int) := by
  unfold pyInt
  rw [pyStrip_all_digits h]
  have hdo : digitsOnly s = some (digitsVal s) := by
    unfold digitsOnly
    rw [if_pos ⟨hne, List.all_eq_true.mpr h⟩]
  cases s with
  | nil => exact absurd rfl hne
  | cons c rest =>
    have hc : c.isDigit = true := h c (List.mem_cons_self c rest)
    have hplus : c ≠ '+' := (isDigit_facts hc).2.2.1
    have hminus : c ≠ '-' := (isDigit_facts hc).2.2.2.1
    split
    · next heq => exact absurd (List.cons.inj heq.symm).1.symm hplus
    · next heq => exact absurd (List.cons.inj heq.symm).1.symm hminus
    · rw [hdo]; rfl

theorem pyInt_natDigits (n : Nat) : pyInt (natDigits n) = some (n : Int) := by
  rw [pyInt_digits (natDigits_ne_nil n) (fun c hc => isDigit_of_mem_natDigits hc),
    digitsVal_natDigits]

/-! ### Lemmas: `pyReplace` -/

theorem isPrefixOf_append_self : ∀ l t : Str, l.isPrefixOf (l ++ t) = true := by
  intro l
  induction l with
  | nil => intro t; exact List.isPrefixOf_nil_left
  | cons c rest ih =>
    intro t
    rw [List.cons_append, List.isPrefixOf_cons₂, ih t]
    simp

theorem pyReplaceAux_fuel (p : Char) (ps repl : Str) :
    ∀ f1 f2 s, s.length ≤ f1 → s.length ≤ f2 →
      pyReplaceAux p ps repl f1 s = pyReplaceAux p ps repl f2 s := by
  intro f1
  induction f1 with
  | zero =>
    intro f2 s h1 _
    have hs : s = [] := List.eq_nil_of_length_eq_zero (Nat.le_zero.mp h1)
    subst hs
    cases f2 <;> rfl
  | succ f1 ih =>
    intro f2 s h1 h2
    cases s with
    | nil => cases f2 <;> rfl
    | cons c rest =>
      cases f2 with
      | zero => simp at h2
      | succ f2 =>
        simp only [pyReplaceAux]
        simp only [List.length_cons, Nat.succ_le_succ_iff] at h1 h2
        by_cases hpre : (p :: ps).isPrefixOf (c :: rest) = true
        · rw [if_pos hpre, if_pos hpre]
          congr 1
          apply ih
          · rw [List.length_drop]; omega
          · rw [List.length_drop]; omega
        · rw [if_neg hpre, if_neg hpre]
          congr 1
          exact ih f2 rest h1 h2

theorem pyReplace_pat (p : Char) (ps repl t : Str) :
    pyReplace p ps repl ((p :: ps) ++ t) = repl ++ pyReplace p ps repl t := by
  show pyReplaceAux p ps repl ((p :: ps) ++ t).length ((p :: ps) ++ t) = _
  have hlen : ((p :: ps) ++ t).length = (ps.length + t.length) + 1 := by
    simp [List.length_append]
  rw [hlen]
  show pyReplaceAux p ps repl ((ps.length + t.length) + 1) (p :: (ps ++ t)) = _
  have hpre := isPrefixOf_append_self (p :: ps) t
  simp only [List.cons_append] at hpre
  rw [show pyReplaceAux p ps repl ((ps.length + t.length) + 1) (p :: (ps ++ t))
      = repl ++ pyReplaceAux p ps repl (ps.length + t.length) ((ps ++ t).drop ps.length)
    from by simp [pyReplaceAux, hpre]]
  rw [List.drop_left]
  congr 1
  exact pyReplaceAux_fuel p ps repl _ _ t (by omega) le_rfl

theorem pyReplaceAux_no_occur (p : Char) (ps repl : Str) :
    ∀ fuel s, s.length ≤ fuel → containsSub p ps s = false →
      pyReplaceAux p ps repl fuel s = s := by
  intro fuel
  induction fuel with
  | zero =>
    intro s h1 _
    have hs : s = [] := List.eq_nil_of_length_eq_zero (Nat.le_zero.mp h1)
    subst hs
    rfl
  | succ fuel ih =>
    intro s h1 h2
    cases s with
    | nil => rfl
    | cons c rest =>
      simp only [containsSub, Bool.or_eq_false_iff] at h2
      rw [show pyReplaceAux p ps repl (fuel + 1) (c :: rest)
          = c :: pyReplaceAux p ps repl fuel rest
        from by simp [pyReplaceAux, h2.1]]
      congr 1
      apply ih rest _ h2.2
      simp only [List.length_cons, Nat.succ_le_succ_iff] at h1
      exact h1

theorem pyReplace_no_occur {p : Char} {ps s : Str} (repl : Str)
    (h : containsSub p ps s = false) : pyReplace p ps repl s = s :=
  pyReplaceAux_no_occur p ps repl s.length s le_rfl h

/-- Inside `digits ++ '_' :: v`, the pattern `"claim"` can only occur
inside `v`: digits and `'_'` never match its head `'c'`, and the
pattern contains no underscore that could bridge the separator. -/
theorem containsSub_claim_mid (v : Str) :
    ∀ d : Str, (∀ c ∈ d, c.isDigit = true) →
      containsSub 'c' ['l', 'a', 'i', 'm'] (d ++ '_' :: v)
        = containsSub 'c' ['l', 'a', 'i', 'm'] v := by
  intro d
  induction d with
  | nil =>
    intro _
    have : ('c' == '_') = false := by decide
    simp [containsSub, List.isPrefixOf, this]
  | cons x d ih =>
    intro h
    have hx : x.isDigit = true := h x (List.mem_cons_self x d)
    have hxc : ('c' == x) = false :=
      beq_eq_false_iff_ne.mpr (Ne.symm (isDigit_facts hx).2.1)
    simp only [List.cons_append, containsSub, List.isPrefixOf, hxc,
      Bool.false_and, Bool.false_or]
    exact ih (fun c hc => h c (List.mem_cons_of_mem x hc))

/-! ### Lemmas: `splitOnChar` -/

theorem splitOnChar_not_mem {sep : Char} :
    ∀ {v : Str}, sep ∉ v → splitOnChar sep v = [v] := by
  intro v
  induction v with
  | nil => intro _; rfl
  | cons c rest ih =>
    intro h
    have hc : ¬(c = sep) := fun e => h (e ▸ List.mem_cons_self c rest)
    have hrest : sep ∉ rest := fun e => h (List.mem_cons_of_mem c e)
    simp [splitOnChar, hc, ih hrest]

theorem splitOnChar_mid {sep : Char} (v : Str) :
    ∀ d : Str, sep ∉ d →
      splitOnChar sep (d ++ sep :: v) = d :: splitOnChar sep v := by
  intro d
  induction d with
  | nil => intro _; simp [splitOnChar]
  | cons c d ih =>
    intro h
    have hc : ¬(c = sep) := fun e => h (e ▸ List.mem_cons_self c d)
    have hd : sep ∉ d := fun e => h (List.mem_cons_of_mem c e)
    simp only [List.cons_append, splitOnChar]
    rw [if_neg hc, List.append_eq, ih hd]

/-! ### Lemmas: identifier round trip -/

theorem underscore_not_mem_natDigits (n : Nat) : '_' ∉ natDigits n :=
  fun hmem => (isDigit_facts (isDigit_of_mem_natDigits hmem)).1 rfl

theorem stripClaim_composeId (n : Nat) (lang : Str)
    (hclaim : hasClaimSub lang = false) :
    stripClaim (composeId n lang) = natDigits n ++ '_' :: lang := by
  unfold stripClaim composeId
  have hlit : "claim".data = 'c' :: ['l', 'a', 'i', 'm'] := rfl
  have hshape : "claim".data ++ natDigits n ++ '_' :: lang
      = ('c' :: ['l', 'a', 'i', 'm']) ++ (natDigits n ++ '_' :: lang) := by
    rw [List.append_assoc, hlit]
  rw [hshape, pyReplace_pat, List.nil_append]
  apply pyReplace_no_occur
  rw [containsSub_claim_mid lang (natDigits n)
    (fun c hc => isDigit_of_mem_natDigits hc)]
  exact hclaim

theorem decomposeId_composeId (n : Nat) (lang : Str)
    (hsep : '_' ∉ lang) (hclaim : hasClaimSub lang = false) :
    decomposeId (composeId n lang) = some ((n : Int), lang) := by
  unfold decomposeId
  rw [stripClaim_composeId n lang hclaim,
    splitOnChar_mid lang (natDigits n) (underscore_not_mem_natDigits n),
    splitOnChar_not_mem hsep]
  show (match pyInt (natDigits n) with
    | some m => some (m, lang)
    | none => none) = _
  rw [pyInt_natDigits]

theorem intStr_natCast (n : Nat) : intStr (n : Int) = natDigits n := by
  unfold intStr
  rw [if_neg (by omega), Int.toNat_natCast]

/-- Claim C1 (amended): for every request record built by
`make_jsonl_line`, decomposing its identifier the way `parse_batch_file`
does (remove every occurrence of `"claim"`, split on `"_"`, parse the
first part as an integer) recovers the row key and the variant, and
recomposing yields the identifier unchanged — provided the separator
`'_'` does not occur in the variant name, and in addition (forced by the
counterexample below) the substring `"claim"` does not occur in the
variant name either.  Row keys are decimal numerals, so both conditions
hold for them automatically. -/
theorem decomposeId_leftInverse (row : ClaimRow) (lang : Str)
    (hsep : '_' ∉ lang) (hclaim : hasClaimSub lang = false) :
    decomposeId (make_jsonl_line row lang).custom_id
        = some ((row.claim_id : Int), lang)
    ∧ (decomposeId (make_jsonl_line row lang).custom_id).map recomposeId
        = some (make_jsonl_line row lang).custom_id := by
  have hid : (make_jsonl_line row lang).custom_id = composeId row.claim_id lang := rfl
  rw [hid, decomposeId_composeId row.claim_id lang hsep hclaim]
  refine ⟨rfl, ?_⟩
  show some (recomposeId ((row.claim_id : Int), lang)) = some (composeId row.claim_id lang)
  unfold recomposeId composeId
  rw [intStr_natCast]

/-- Claim C1 counterexample: the claim as stated only requires that the
separator `'_'` not occur in row keys or variant names.  For the variant
name `"claimx"` (which contains no `'_'`) the decomposition removes the
embedded `"claim"` as well, so decompose-then-recompose returns
`"claim1_x"` instead of the original identifier `"claim1_claimx"`. -/
theorem decomposeId_leftInverse_cex :
    ('_' ∉ "claimx".data)
    ∧ (decomposeId (make_jsonl_line ⟨1, [], [], []⟩ "claimx".data).custom_id).map
        recomposeId
      ≠ some (make_jsonl_line ⟨1, [], [], []⟩ "claimx".data).custom_id := by
  decide

/-- Claim C1 witness: the round trip at row 1 of the demo dataset and the
target language `"Spanish"`. -/
theorem decomposeId_leftInverse_witness :
    decomposeId (make_jsonl_line ⟨1, [], [], []⟩ "Spanish".data).custom_id
        = some ((1 : Int), "Spanish".data)
    ∧ (decomposeId (make_jsonl_line ⟨1, [], [], []⟩ "Spanish".data).custom_id).map
        recomposeId
      = some (make_jsonl_line ⟨1, [], [], []⟩ "Spanish".data).custom_id :=
  decomposeId_leftInverse ⟨1, [], [], []⟩ "Spanish".data (by decide) (by decide)

/-! ### Lemmas: uniqueness of built identifiers -/

/-- Splitting at the first occurrence of a separator is unambiguous. -/
theorem append_sep_inj {sep : Char} :
    ∀ a c b d : Str, sep ∉ a → sep ∉ c →
      a ++ sep :: b = c ++ sep :: d → a = c ∧ b = d := by
  intro a
  induction a with
  | nil =>
    intro c b d _ hc h
    cases c with
    | nil => exact ⟨rfl, (List.cons.inj h).2⟩
    | cons y c' =>
      exfalso
      have : sep = y := (List.cons.inj h).1
      exact hc (this ▸ List.mem_cons_self y c')
  | cons x a' ih =>
    intro c b d ha hc h
    cases c with
    | nil =>
      exfalso
      have : x = sep := (List.cons.inj h).1
      exact ha (this ▸ List.mem_cons_self x a')
    | cons y c' =>
      have h1 : x = y := (List.cons.inj h).1
      have h2 := ih c' b d (fun e => ha (List.mem_cons_of_mem x e))
        (fun e => hc (List.mem_cons_of_mem y e)) (List.cons.inj h).2
      exact ⟨by rw [h1, h2.1], h2.2⟩

theorem composeId_inj {n m : Nat} {v w : Str}
    (h : composeId n v = composeId m w) : n = m ∧ v = w := by
  unfold composeId at h
  rw [List.append_assoc, List.append_assoc] at h
  have h2 := List.append_cancel_left h
  have h3 := append_sep_inj (natDigits n) (natDigits m) v w
    (underscore_not_mem_natDigits n) (underscore_not_mem_natDigits m) h2
  exact ⟨natDigits_injective h3.1, h3.2⟩

theorem custom_id_make_jsonl (r : ClaimRow) (lang : Str) :
    (make_jsonl_line r lang).custom_id = composeId r.claim_id lang := rfl

theorem buildJsonl_length (rows : List ClaimRow) (langs : List Str) :
    (buildJsonl rows langs).length = rows.length * langs.length := by
  induction rows with
  | nil => simp [buildJsonl]
  | cons r rows ih =>
    simp only [buildJsonl, List.flatMap_cons, List.length_append,
      List.length_map] at *
    rw [ih, List.length_cons]
    ring

theorem buildJsonl_ids_nodup (rows : List ClaimRow) (langs : List Str)
    (hrows : (rows.map (fun r => r.claim_id)).Nodup) (hlangs : langs.Nodup) :
    ((buildJsonl rows langs).map (fun rec => rec.custom_id)).Nodup := by
  unfold buildJsonl
  rw [List.map_flatMap]
  simp only [List.map_map, Function.comp_def, custom_id_make_jsonl]
  rw [List.nodup_flatMap]
  constructor
  · intro r _
    exact hlangs.map (fun a b hab => (composeId_inj hab).2)
  · have hp : List.Pairwise (fun a b : ClaimRow => a.claim_id ≠ b.claim_id) rows :=
      List.pairwise_map.mp hrows
    refine hp.imp ?_
    intro a b hne x hx1 hx2
    rcases List.mem_map.mp hx1 with ⟨la, _, h1⟩
    rcases List.mem_map.mp hx2 with ⟨lb, _, h2⟩
    exact hne (composeId_inj (h1.trans h2.symm)).1

/-- Claim C2 (amended): the build loop produces exactly
`rows × variants` request records (unconditionally), and their
identifiers are pairwise unique provided the rows' keys (`claim_id`
values) are pairwise distinct and the variants are pairwise distinct.
The distinctness of row keys is forced by the counterexample below: two
distinct rows sharing a `claim_id` yield colliding identifiers. -/
theorem buildJsonl_count_unique (rows : List ClaimRow) (langs : List Str)
    (hrows : (rows.map (fun r => r.claim_id)).Nodup) (hlangs : langs.Nodup) :
    (buildJsonl rows langs).length = rows.length * langs.length
    ∧ ((buildJsonl rows langs).map (fun rec => rec.custom_id)).Nodup :=
  ⟨buildJsonl_length rows langs, buildJsonl_ids_nodup rows langs hrows hlangs⟩

/-- Claim C2 counterexample: the claim as stated quantifies over every
input row set.  For the row set holding two distinct rows that share the
row key `1` and the single variant `"S"`, the builder produces
`2 × 1 = 2` records whose identifiers coincide (both are `"claim1_S"`),
so identifiers are not pairwise unique. -/
theorem buildJsonl_count_unique_cex :
    ([⟨1, ['A'], [], []⟩, ⟨1, ['B'], [], []⟩] : List ClaimRow).Nodup
    ∧ ([['S']] : List Str).Nodup
    ∧ ¬ ((buildJsonl [⟨1, ['A'], [], []⟩, ⟨1, ['B'], [], []⟩] [['S']]).map
          (fun rec => rec.custom_id)).Nodup := by
  decide

/-- Claim C2 witness: the demo dataset (3 rows, pairwise-distinct keys)
and the 3 target languages give 9 records with pairwise-unique ids. -/
theorem buildJsonl_count_unique_witness :
    (buildJsonl df_claims TARGET_LANGS).length
        = df_claims.length * TARGET_LANGS.length
    ∧ ((buildJsonl df_claims TARGET_LANGS).map (fun rec => rec.custom_id)).Nodup :=
  buildJsonl_count_unique df_claims TARGET_LANGS (by decide) (by decide)

/-! ### Lemmas: the chunker -/

theorem join_slices (c : Nat) (l : List Str) :
    ∀ numParts : Nat,
      ((List.range numParts).map (fun i => (l.drop (i * c)).take c)).flatten
        = l.take (numParts * c) := by
  intro numParts
  induction numParts with
  | zero => simp
  | succ n ih =>
    rw [List.range_succ, List.map_append, List.flatten_append, ih]
    simp only [List.map_cons, List.map_nil, List.flatten_cons, List.flatten_nil,
      List.append_nil]
    rw [Nat.succ_mul, List.take_add]

/-- Claim C3: for every ordered list of request lines and every chunk
count `NUM_PARTS ≥ 1`, concatenating the produced chunks in order
reproduces the original line list exactly — every record appears exactly
once, in the original order. -/
theorem chunkParts_flatten (numParts : Nat) (lines : List Str)
    (h : 1 ≤ numParts) :
    (chunkParts numParts lines).flatten = lines := by
  by_cases h1 : numParts = 1
  · subst h1
    simp [chunkParts]
  · unfold chunkParts
    rw [if_neg h1]
    show ((List.range numParts).map
        (fun i => (lines.drop (i * (lines.length / numParts + 1))).take
          (lines.length / numParts + 1))).flatten = lines
    rw [join_slices]
    apply List.take_of_length_le
    have hd := Nat.div_add_mod lines.length numParts
    have hm : lines.length % numParts < numParts := Nat.mod_lt _ (by omega)
    calc lines.length
        = numParts * (lines.length / numParts) + lines.length % numParts := hd.symm
      _ ≤ numParts * (lines.length / numParts) + numParts := by omega
      _ = numParts * (lines.length / numParts + 1) := by ring

/-- Claim C3 witness: splitting 8 concrete request lines into 4 chunks
and concatenating them back yields the original list. -/
theorem chunkParts_flatten_witness :
    (chunkParts 4 [['a'], ['b'], ['c'], ['d'], ['e'], ['f'], ['g'], ['h']]).flatten
      = [['a'], ['b'], ['c'], ['d'], ['e'], ['f'], ['g'], ['h']] :=
  chunkParts_flatten 4 [['a'], ['b'], ['c'], ['d'], ['e'], ['f'], ['g'], ['h']]
    (by decide)

/-- Claim C8: in the degenerate case `NUM_PARTS = 1` the chunker returns
the whole request list unchanged as its single part — no rewriting and
no reordering of the lines. -/
theorem chunkParts_one (lines : List Str) : chunkParts 1 lines = [lines] := by
  unfold chunkParts
  rw [if_pos rfl]

/-- Claim C10: when `NUM_PARTS > 1` every chunk is the slice
`lines[i*chunk:(i+1)*chunk]` with the fixed stride
`chunk = len(lines) // NUM_PARTS + 1`; exactly `NUM_PARTS` chunks are
produced and included in the part list, and whenever the first
`NUM_PARTS - 1` strides already cover the whole list the trailing chunk
is empty — yet still present. -/
theorem chunkParts_stride (numParts : Nat) (lines : List Str)
    (h : 1 < numParts) :
    (chunkParts numParts lines).length = numParts
    ∧ (∀ i, i < numParts →
        (chunkParts numParts lines)[i]?
          = some ((lines.drop (i * (lines.length / numParts + 1))).take
              (lines.length / numParts + 1)))
    ∧ (lines.length ≤ (numParts - 1) * (lines.length / numParts + 1) →
        (chunkParts numParts lines)[numParts - 1]? = some []) := by
  have hne : numParts ≠ 1 := by omega
  have hform : chunkParts numParts lines
      = (List.range numParts).map
          (fun i => (lines.drop (i * (lines.length / numParts + 1))).take
            (lines.length / numParts + 1)) := by
    unfold chunkParts
    rw [if_neg hne]
  have hget : ∀ i, i < numParts →
      (chunkParts numParts lines)[i]?
        = some ((lines.drop (i * (lines.length / numParts + 1))).take
            (lines.length / numParts + 1)) := by
    intro i hi
    rw [hform, List.getElem?_map, List.getElem?_range hi, Option.map_some']
  refine ⟨by rw [hform]; simp, hget, ?_⟩
  intro hcover
  rw [hget (numParts - 1) (by omega)]
  rw [List.drop_eq_nil_of_le, List.take_nil]
  calc lines.length ≤ (numParts - 1) * (lines.length / numParts + 1) := hcover
    _ = (numParts - 1) * (lines.length / numParts + 1) := rfl

/-- Claim C10 witness: 8 lines split into 4 parts give chunk sizes
3, 3, 2, 0 — the last chunk is empty but still created and included. -/
theorem chunkParts_stride_witness :
    ((chunkParts 4 (List.replicate 8 ['x'])).length = 4
      ∧ (∀ i, i < 4 →
          (chunkParts 4 (List.replicate 8 ['x']))[i]?
            = some (((List.replicate 8 ['x']).drop
                (i * ((List.replicate 8 ['x']).length / 4 + 1))).take
                ((List.replicate 8 ['x']).length / 4 + 1)))
      ∧ ((List.replicate 8 ['x']).length
            ≤ (4 - 1) * ((List.replicate 8 ['x']).length / 4 + 1) →
          (chunkParts 4 (List.replicate 8 ['x']))[4 - 1]? = some []))
    ∧ (chunkParts 4 (List.replicate 8 ['x'])).map List.length = [3, 3, 2, 0] :=
  ⟨chunkParts_stride 4 (List.replicate 8 ['x']) (by decide), by decide⟩

/-! ### Lemmas: the polling loop -/

theorem pollStep_PENDING_nodup {q : BatchId → Str} {st : PollState}
    (hnd : st.PENDING.Nodup) (b : BatchId) :
    (pollStep q st b).PENDING.Nodup := by
  unfold pollStep
  by_cases h1 : q b = completedStr
  · rw [if_pos h1]; exact hnd.erase b
  · rw [if_neg h1]
    by_cases h2 : q b = failedStr
    · rw [if_pos h2]; exact hnd.erase b
    · rw [if_neg h2]; exact hnd

theorem foldl_pollStep_COMPLETED (q : BatchId → Str) :
    ∀ (l : List BatchId) (st : PollState) (x : BatchId),
      x ∈ (l.foldl (pollStep q) st).COMPLETED ↔
        x ∈ st.COMPLETED ∨ (x ∈ l ∧ q x = completedStr) := by
  intro l
  induction l with
  | nil => intro st x; simp
  | cons b l ih =>
    intro st x
    rw [List.foldl_cons, ih]
    have hstep : x ∈ (pollStep q st b).COMPLETED ↔
        x ∈ st.COMPLETED ∨ (x = b ∧ q b = completedStr) := by
      unfold pollStep
      by_cases h1 : q b = completedStr
      · rw [if_pos h1]
        dsimp only
        rw [List.mem_insert_iff]
        tauto
      · rw [if_neg h1]
        by_cases h2 : q b = failedStr
        · rw [if_pos h2]; dsimp only; tauto
        · rw [if_neg h2]; tauto
    rw [hstep]
    by_cases hxb : x = b
    · subst hxb
      simp only [List.mem_cons]
      tauto
    · simp only [List.mem_cons]
      tauto

theorem foldl_pollStep_FAILED (q : BatchId → Str) :
    ∀ (l : List BatchId) (st : PollState) (x : BatchId),
      x ∈ (l.foldl (pollStep q) st).FAILED ↔
        x ∈ st.FAILED ∨ (x ∈ l ∧ q x = failedStr) := by
  intro l
  induction l with
  | nil => intro st x; simp
  | cons b l ih =>
    intro st x
    rw [List.foldl_cons, ih]
    have hstep : x ∈ (pollStep q st b).FAILED ↔
        x ∈ st.FAILED ∨ (x = b ∧ q b = failedStr) := by
      unfold pollStep
      by_cases h1 : q b = completedStr
      · rw [if_pos h1]
        dsimp only
        constructor
        · exact fun h => Or.inl h
        · rintro (h | ⟨rfl, hq⟩)
          · exact h
          · exact absurd h1 (by rw [hq]; decide)
      · rw [if_neg h1]
        by_cases h2 : q b = failedStr
        · rw [if_pos h2]
          dsimp only
          rw [List.mem_insert_iff]
          tauto
        · rw [if_neg h2]; tauto
    rw [hstep]
    by_cases hxb : x = b
    · subst hxb
      simp only [List.mem_cons]
      tauto
    · simp only [List.mem_cons]
      tauto

theorem foldl_pollStep_PENDING (q : BatchId → Str) :
    ∀ (l : List BatchId) (st : PollState) (x : BatchId), st.PENDING.Nodup →
      (x ∈ (l.foldl (pollStep q) st).PENDING ↔
        x ∈ st.PENDING ∧ (x ∈ l → (q x ≠ completedStr ∧ q x ≠ failedStr))) := by
  intro l
  induction l with
  | nil => intro st x _; simp
  | cons b l ih =>
    intro st x hnd
    rw [List.foldl_cons, ih (pollStep q st b) x (pollStep_PENDING_nodup hnd b)]
    have herase : x ∈ st.PENDING.erase b ↔ x ≠ b ∧ x ∈ st.PENDING :=
      hnd.mem_erase_iff
    by_cases h1 : q b = completedStr
    · have hstep : (pollStep q st b).PENDING = st.PENDING.erase b := by
        unfold pollStep
        rw [if_pos h1]
      rw [hstep, herase]
      by_cases hxb : x = b
      · subst hxb
        simp only [List.mem_cons]
        constructor
        · rintro ⟨⟨hne, _⟩, _⟩
          exact absurd rfl hne
        · rintro ⟨_, himp⟩
          have := himp (Or.inl trivial)
          exact absurd h1 this.1
      · simp only [List.mem_cons]
        tauto
    · by_cases h2 : q b = failedStr
      · have hstep : (pollStep q st b).PENDING = st.PENDING.erase b := by
          unfold pollStep
          rw [if_neg h1, if_pos h2]
        rw [hstep, herase]
        by_cases hxb : x = b
        · subst hxb
          simp only [List.mem_cons]
          constructor
          · rintro ⟨⟨hne, _⟩, _⟩
            exact absurd rfl hne
          · rintro ⟨_, himp⟩
            have := himp (Or.inl trivial)
            exact absurd h2 this.2
        · simp only [List.mem_cons]
          tauto
      · have hstep : (pollStep q st b).PENDING = st.PENDING := by
          unfold pollStep
          rw [if_neg h1, if_neg h2]
        rw [hstep]
        by_cases hxb : x = b
        · subst hxb
          simp only [List.mem_cons]
          constructor
          · rintro ⟨hP, _⟩
            exact ⟨hP, fun _ => ⟨h1, h2⟩⟩
          · rintro ⟨hP, himp⟩
            exact ⟨hP, fun hl => himp (Or.inr hl)⟩
        · simp only [List.mem_cons]
          tauto

theorem pollPass_COMPLETED (q : BatchId → Str) (st : PollState) (x : BatchId) :
    x ∈ (pollPass q st).COMPLETED ↔
      x ∈ st.COMPLETED ∨ (x ∈ st.PENDING ∧ q x = completedStr) :=
  foldl_pollStep_COMPLETED q st.PENDING st x

theorem pollPass_FAILED (q : BatchId → Str) (st : PollState) (x : BatchId) :
    x ∈ (pollPass q st).FAILED ↔
      x ∈ st.FAILED ∨ (x ∈ st.PENDING ∧ q x = failedStr) :=
  foldl_pollStep_FAILED q st.PENDING st x

theorem pollPass_PENDING (q : BatchId → Str) (st : PollState) (x : BatchId)
    (hnd : st.PENDING.Nodup) :
    x ∈ (pollPass q st).PENDING ↔
      x ∈ st.PENDING ∧ q x ≠ completedStr ∧ q x ≠ failedStr := by
  rw [pollPass, foldl_pollStep_PENDING q st.PENDING st x hnd]
  tauto

theorem foldl_pollStep_nodup (q : BatchId → Str) :
    ∀ (l : List BatchId) (st : PollState), st.PENDING.Nodup →
      (l.foldl (pollStep q) st).PENDING.Nodup := by
  intro l
  induction l with
  | nil => intro st h; exact h
  | cons b l ih =>
    intro st h
    rw [List.foldl_cons]
    exact ih _ (pollStep_PENDING_nodup h b)

theorem pollPass_nodup {q : BatchId → Str} {st : PollState}
    (hnd : st.PENDING.Nodup) : (pollPass q st).PENDING.Nodup :=
  foldl_pollStep_nodup q st.PENDING st hnd

theorem pollPass_disjoint (q : BatchId → Str) (st : PollState)
    (hnd : st.PENDING.Nodup)
    (hPC : ∀ y, y ∈ st.PENDING → y ∉ st.COMPLETED)
    (hPF : ∀ y, y ∈ st.PENDING → y ∉ st.FAILED)
    (hCF : ∀ y, y ∈ st.COMPLETED → y ∉ st.FAILED) :
    (∀ y, y ∈ (pollPass q st).PENDING → y ∉ (pollPass q st).COMPLETED)
    ∧ (∀ y, y ∈ (pollPass q st).PENDING → y ∉ (pollPass q st).FAILED)
    ∧ (∀ y, y ∈ (pollPass q st).COMPLETED → y ∉ (pollPass q st).FAILED) := by
  have hne : completedStr ≠ failedStr := by decide
  refine ⟨?_, ?_, ?_⟩ <;> intro y hy hy'
  · rw [pollPass_PENDING q st y hnd] at hy
    rw [pollPass_COMPLETED] at hy'
    rcases hy' with h | ⟨_, hq⟩
    · exact hPC y hy.1 h
    · exact hy.2.1 hq
  · rw [pollPass_PENDING q st y hnd] at hy
    rw [pollPass_FAILED] at hy'
    rcases hy' with h | ⟨_, hq⟩
    · exact hPF y hy.1 h
    · exact hy.2.2 hq
  · rw [pollPass_COMPLETED] at hy
    rw [pollPass_FAILED] at hy'
    rcases hy with hC | ⟨hP, hqc⟩
    · rcases hy' with hF | ⟨hP, _⟩
      · exact hCF y hC hF
      · exact hPC y hP hC
    · rcases hy' with hF | ⟨_, hqf⟩
      · exact hPF y hP hF
      · exact hne (hqc.symm.trans hqf)

theorem pollPass_cover (q : BatchId → Str) (st : PollState) (x : BatchId)
    (hnd : st.PENDING.Nodup)
    (h : x ∈ st.PENDING ∨ x ∈ st.COMPLETED ∨ x ∈ st.FAILED) :
    x ∈ (pollPass q st).PENDING ∨ x ∈ (pollPass q st).COMPLETED
      ∨ x ∈ (pollPass q st).FAILED := by
  rw [pollPass_PENDING q st x hnd, pollPass_COMPLETED, pollPass_FAILED]
  by_cases h1 : q x = completedStr
  · tauto
  · by_cases h2 : q x = failedStr <;> tauto

theorem pollLoop_nodup (qs : Nat → BatchId → Str) :
    ∀ (fuel t : Nat) (st : PollState), st.PENDING.Nodup →
      (pollLoop qs t fuel st).PENDING.Nodup := by
  intro fuel
  induction fuel with
  | zero => intro t st h; exact h
  | succ fuel ih =>
    intro t st h
    rw [pollLoop]
    by_cases hP : st.PENDING = []
    · rw [if_pos hP]; exact h
    · rw [if_neg hP]; exact ih _ _ (pollPass_nodup h)

theorem pollLoop_COMPLETED_src (qs : Nat → BatchId → Str) :
    ∀ (fuel t : Nat) (st : PollState) (x : BatchId), st.PENDING.Nodup →
      x ∈ (pollLoop qs t fuel st).COMPLETED →
      x ∈ st.COMPLETED ∨ ∃ j, qs j x = completedStr := by
  intro fuel
  induction fuel with
  | zero => intro t st x _ h; exact Or.inl h
  | succ fuel ih =>
    intro t st x hnd h
    rw [pollLoop] at h
    by_cases hP : st.PENDING = []
    · rw [if_pos hP] at h; exact Or.inl h
    · rw [if_neg hP] at h
      rcases ih _ _ x (pollPass_nodup hnd) h with h1 | h1
      · rw [pollPass_COMPLETED] at h1
        rcases h1 with h2 | ⟨_, h2⟩
        · exact Or.inl h2
        · exact Or.inr ⟨t, h2⟩
      · exact Or.inr h1

theorem pollLoop_FAILED_src (qs : Nat → BatchId → Str) :
    ∀ (fuel t : Nat) (st : PollState) (x : BatchId), st.PENDING.Nodup →
      x ∈ (pollLoop qs t fuel st).FAILED →
      x ∈ st.FAILED ∨ ∃ j, qs j x = failedStr := by
  intro fuel
  induction fuel with
  | zero => intro t st x _ h; exact Or.inl h
  | succ fuel ih =>
    intro t st x hnd h
    rw [pollLoop] at h
    by_cases hP : st.PENDING = []
    · rw [if_pos hP] at h; exact Or.inl h
    · rw [if_neg hP] at h
      rcases ih _ _ x (pollPass_nodup hnd) h with h1 | h1
      · rw [pollPass_FAILED] at h1
        rcases h1 with h2 | ⟨_, h2⟩
        · exact Or.inl h2
        · exact Or.inr ⟨t, h2⟩
      · exact Or.inr h1

theorem pollLoop_PENDING_sub (qs : Nat → BatchId → Str) :
    ∀ (fuel t : Nat) (st : PollState) (x : BatchId), st.PENDING.Nodup →
      x ∈ (pollLoop qs t fuel st).PENDING → x ∈ st.PENDING := by
  intro fuel
  induction fuel with
  | zero => intro t st x _ h; exact h
  | succ fuel ih =>
    intro t st x hnd h
    rw [pollLoop] at h
    by_cases hP : st.PENDING = []
    · rw [if_pos hP] at h; exact h
    · rw [if_neg hP] at h
      have h1 := ih _ _ x (pollPass_nodup hnd) h
      exact ((pollPass_PENDING _ st x hnd).mp h1).1

theorem pollLoop_cover (qs : Nat → BatchId → Str) :
    ∀ (fuel t : Nat) (st : PollState) (x : BatchId), st.PENDING.Nodup →
      (x ∈ st.PENDING ∨ x ∈ st.COMPLETED ∨ x ∈ st.FAILED) →
      (x ∈ (pollLoop qs t fuel st).PENDING
        ∨ x ∈ (pollLoop qs t fuel st).COMPLETED
        ∨ x ∈ (pollLoop qs t fuel st).FAILED) := by
  intro fuel
  induction fuel with
  | zero => intro t st x _ h; exact h
  | succ fuel ih =>
    intro t st x hnd h
    rw [pollLoop]
    by_cases hP : st.PENDING = []
    · rw [if_pos hP]; exact h
    · rw [if_neg hP]
      exact ih _ _ x (pollPass_nodup hnd) (pollPass_cover _ st x hnd h)

theorem pollLoop_disjoint (qs : Nat → BatchId → Str) :
    ∀ (fuel t : Nat) (st : PollState), st.PENDING.Nodup →
      (∀ y, y ∈ st.PENDING → y ∉ st.COMPLETED) →
      (∀ y, y ∈ st.PENDING → y ∉ st.FAILED) →
      (∀ y, y ∈ st.COMPLETED → y ∉ st.FAILED) →
      (∀ y, y ∈ (pollLoop qs t fuel st).PENDING
          → y ∉ (pollLoop qs t fuel st).COMPLETED)
      ∧ (∀ y, y ∈ (pollLoop qs t fuel st).PENDING
          → y ∉ (pollLoop qs t fuel st).FAILED)
      ∧ (∀ y, y ∈ (pollLoop qs t fuel st).COMPLETED
          → y ∉ (pollLoop qs t fuel st).FAILED) := by
  intro fuel
  induction fuel with
  | zero => intro t st _ h1 h2 h3; exact ⟨h1, h2, h3⟩
  | succ fuel ih =>
    intro t st hnd h1 h2 h3
    rw [pollLoop]
    by_cases hP : st.PENDING = []
    · rw [if_pos hP]; exact ⟨h1, h2, h3⟩
    · rw [if_neg hP]
      have hd := pollPass_disjoint (qs t) st hnd h1 h2 h3
      exact ih _ _ (pollPass_nodup hnd) hd.1 hd.2.1 hd.2.2

/-- Claim C4: starting from `PENDING = set(batch_ids)`, the polling loop
(i) when it exits — `PENDING` empty, the negation of the `while` guard —
every handle is in a terminal set, (ii) while `PENDING` is nonempty the
loop keeps running precisely because some handle is in neither terminal
set, (iii)/(iv) a handle is in `COMPLETED` (resp. `FAILED`) only if some
status query returned `"completed"` (resp. `"failed"`) for it, and (v) a
pending handle whose queried status is neither `"completed"` nor
`"failed"` remains pending after the pass. -/
theorem pollLoop_terminal_spec (qs : Nat → BatchId → Str) (fuel : Nat)
    (batch_ids : List BatchId) :
    ((pollLoop qs 0 fuel (initPoll batch_ids)).PENDING = [] →
      ∀ x ∈ batch_ids, x ∈ (pollLoop qs 0 fuel (initPoll batch_ids)).COMPLETED
        ∨ x ∈ (pollLoop qs 0 fuel (initPoll batch_ids)).FAILED)
    ∧ ((pollLoop qs 0 fuel (initPoll batch_ids)).PENDING ≠ [] →
      ∃ x, x ∈ batch_ids
        ∧ x ∉ (pollLoop qs 0 fuel (initPoll batch_ids)).COMPLETED
        ∧ x ∉ (pollLoop qs 0 fuel (initPoll batch_ids)).FAILED)
    ∧ (∀ x, x ∈ (pollLoop qs 0 fuel (initPoll batch_ids)).COMPLETED →
        ∃ j, qs j x = completedStr)
    ∧ (∀ x, x ∈ (pollLoop qs 0 fuel (initPoll batch_ids)).FAILED →
        ∃ j, qs j x = failedStr)
    ∧ (∀ (q : BatchId → Str) (s : PollState), s.PENDING.Nodup →
        ∀ x ∈ s.PENDING, q x ≠ completedStr → q x ≠ failedStr →
          x ∈ (pollPass q s).PENDING) := by
  have hnd : (initPoll batch_ids).PENDING.Nodup := batch_ids.nodup_dedup
  have hC0 : (initPoll batch_ids).COMPLETED = [] := rfl
  have hF0 : (initPoll batch_ids).FAILED = [] := rfl
  refine ⟨?_, ?_, ?_, ?_, ?_⟩
  · intro hempty x hx
    have hx0 : x ∈ (initPoll batch_ids).PENDING := List.mem_dedup.mpr hx
    have := pollLoop_cover qs fuel 0 (initPoll batch_ids) x hnd (Or.inl hx0)
    rw [hempty] at this
    rcases this with h | h
    · exact absurd h (List.not_mem_nil x)
    · exact h
  · intro hne
    rcases List.exists_mem_of_ne_nil _ hne with ⟨x, hx⟩
    have hdisj := pollLoop_disjoint qs fuel 0 (initPoll batch_ids) hnd
      (fun y hy => by rw [hC0]; exact List.not_mem_nil y)
      (fun y hy => by rw [hF0]; exact List.not_mem_nil y)
      (fun y hy => by rw [hC0] at hy; exact absurd hy (List.not_mem_nil y))
    refine ⟨x, ?_, hdisj.1 x hx, hdisj.2.1 x hx⟩
    exact List.mem_dedup.mp
      (pollLoop_PENDING_sub qs fuel 0 (initPoll batch_ids) x hnd hx)
  · intro x hx
    rcases pollLoop_COMPLETED_src qs fuel 0 (initPoll batch_ids) x hnd hx with h | h
    · rw [hC0] at h; exact absurd h (List.not_mem_nil x)
    · exact h
  · intro x hx
    rcases pollLoop_FAILED_src qs fuel 0 (initPoll batch_ids) x hnd hx with h | h
    · rw [hF0] at h; exact absurd h (List.not_mem_nil x)
    · exact h
  · intro q s hsnd x hx hqc hqf
    exact (pollPass_PENDING q s x hsnd).mpr ⟨hx, hqc, hqf⟩

/-- Claim C4 witness: one batch id, an oracle that always answers
`"completed"`, one pass of fuel. -/
theorem pollLoop_terminal_spec_witness :
    ((pollLoop (fun _ _ => completedStr) 0 1 (initPoll [['b']])).PENDING = [] →
      ∀ x ∈ [['b']],
        x ∈ (pollLoop (fun _ _ => completedStr) 0 1 (initPoll [['b']])).COMPLETED
        ∨ x ∈ (pollLoop (fun _ _ => completedStr) 0 1 (initPoll [['b']])).FAILED)
    ∧ ((pollLoop (fun _ _ => completedStr) 0 1 (initPoll [['b']])).PENDING ≠ [] →
      ∃ x, x ∈ [['b']]
        ∧ x ∉ (pollLoop (fun _ _ => completedStr) 0 1 (initPoll [['b']])).COMPLETED
        ∧ x ∉ (pollLoop (fun _ _ => completedStr) 0 1 (initPoll [['b']])).FAILED)
    ∧ (∀ x, x ∈ (pollLoop (fun _ _ => completedStr) 0 1 (initPoll [['b']])).COMPLETED →
        ∃ j : Nat, (fun (_ : Nat) (_ : BatchId) => completedStr) j x = completedStr)
    ∧ (∀ x, x ∈ (pollLoop (fun _ _ => completedStr) 0 1 (initPoll [['b']])).FAILED →
        ∃ j : Nat, (fun (_ : Nat) (_ : BatchId) => completedStr) j x = failedStr)
    ∧ (∀ (q : BatchId → Str) (s : PollState), s.PENDING.Nodup →
        ∀ x ∈ s.PENDING, q x ≠ completedStr → q x ≠ failedStr →
          x ∈ (pollPass q s).PENDING) :=
  pollLoop_terminal_spec (fun _ _ => completedStr) 1 [['b']]

/-- Claim C7: after the polling loop, a handle that ended in the
`FAILED` set is not in `COMPLETED`; the download-and-parse loop iterates
over `COMPLETED` only, so the result tables are entirely independent of
that handle's output (it contributes zero result records); and the handle
is counted in the `failed` count printed to the operator, which is
therefore nonzero — the failure is surfaced, not silently dropped. -/
theorem failed_batch_isolated (qs : Nat → BatchId → Str) (fuel : Nat)
    (batch_ids : List BatchId) (x : BatchId)
    (hx : x ∈ (pollLoop qs 0 fuel (initPoll batch_ids)).FAILED) :
    x ∉ (pollLoop qs 0 fuel (initPoll batch_ids)).COMPLETED
    ∧ (∀ dl dl' : BatchId → Option (List ResultRow),
        (∀ b, b ≠ x → dl b = dl' b) →
        collectTables dl (pollLoop qs 0 fuel (initPoll batch_ids)).COMPLETED
          = collectTables dl' (pollLoop qs 0 fuel (initPoll batch_ids)).COMPLETED)
    ∧ 0 < reportFailed (pollLoop qs 0 fuel (initPoll batch_ids)) := by
  have hnd : (initPoll batch_ids).PENDING.Nodup := batch_ids.nodup_dedup
  have hdisj := pollLoop_disjoint qs fuel 0 (initPoll batch_ids) hnd
    (fun y _ => List.not_mem_nil y)
    (fun y _ => List.not_mem_nil y)
    (fun y hy => absurd hy (List.not_mem_nil y))
  refine ⟨fun hC => hdisj.2.2 x hC hx, ?_, ?_⟩
  · intro dl dl' hagree
    unfold collectTables
    apply List.filterMap_congr
    intro b hb
    have hbx : b ≠ x := fun e => hdisj.2.2 b hb (e ▸ hx)
    exact hagree b hbx
  · exact List.length_pos.mpr (List.ne_nil_of_mem hx)

/-- Claim C7 witness: one batch id whose status query answers
`"failed"`. -/
theorem failed_batch_isolated_witness :
    ['b'] ∉ (pollLoop (fun _ _ => failedStr) 0 1 (initPoll [['b']])).COMPLETED
    ∧ (∀ dl dl' : BatchId → Option (List ResultRow),
        (∀ b, b ≠ ['b'] → dl b = dl' b) →
        collectTables dl (pollLoop (fun _ _ => failedStr) 0 1 (initPoll [['b']])).COMPLETED
          = collectTables dl'
              (pollLoop (fun _ _ => failedStr) 0 1 (initPoll [['b']])).COMPLETED)
    ∧ 0 < reportFailed (pollLoop (fun _ _ => failedStr) 0 1 (initPoll [['b']])) :=
  failed_batch_isolated (fun _ _ => failedStr) 1 [['b']] ['b'] (by decide)

/-- Claim C6: if after attempting to download and parse every completed
batch no table was produced (`dl b = none` for every completed id, so
`all_tables` is empty), the program raises the fatal
`"No completed batch files parsed!"` error and the concatenation into
the final dataframe does not run; if at least one table was parsed,
aggregation proceeds and returns the concatenation. -/
theorem aggregate_empty_fatal (dl : BatchId → Option (List ResultRow))
    (completed : List BatchId) :
    ((∀ b ∈ completed, dl b = none) →
      aggregateResults dl completed = Except.error noTablesMsg)
    ∧ (∀ b tbl, b ∈ completed → dl b = some tbl →
      aggregateResults dl completed
        = Except.ok (collectTables dl completed).flatten) := by
  constructor
  · intro hall
    unfold aggregateResults collectTables
    rw [List.filterMap_eq_nil_iff.mpr hall]
    rfl
  · intro b tbl hb hdl
    show (if collectTables dl completed = [] then Except.error noTablesMsg
        else Except.ok (collectTables dl completed).flatten)
      = Except.ok (collectTables dl completed).flatten
    have hne : collectTables dl completed ≠ [] :=
      List.ne_nil_of_mem (show tbl ∈ collectTables dl completed from
        List.mem_filterMap.mpr ⟨b, hb, hdl⟩)
    rw [if_neg hne]

/-- Claim C6 witness: with one completed batch whose download fails the
aggregation raises; with one completed batch producing a table it
returns the concatenation. -/
theorem aggregate_empty_fatal_witness :
    ((∀ b ∈ [(['b'] : BatchId)], (fun (_ : BatchId) => (none : Option (List ResultRow))) b = none) →
      aggregateResults (fun _ => none) [['b']] = Except.error noTablesMsg)
    ∧ (∀ b tbl, b ∈ [(['b'] : BatchId)] →
        (fun (_ : BatchId) => (none : Option (List ResultRow))) b = some tbl →
      aggregateResults (fun _ => none) [['b']]
        = Except.ok (collectTables (fun _ => none) [['b']]).flatten) :=
  aggregate_empty_fatal (fun _ => none) [['b']]

/-- Claim C5 (amended): the startup cell raises the fatal error exactly
when the resolved credential — the environment variable when set,
otherwise the stripped fallback-file content — is missing or empty, and
the error precludes constructing the API client (the `Except` success
value), hence precedes any network activity.  In particular: both
sources absent gives the error; a set, nonempty environment variable
gives a client; an unset variable with a fallback file whose stripped
content is nonempty gives a client.  The amendment (forced by the
counterexample below): an environment variable set to the empty string
masks the fallback file and still triggers the error, because the
fallback only fires when the variable is entirely unset. -/
theorem startup_key_spec (env key_file : Option Str) :
    (getenvAfterFallback env key_file = none
        ∨ getenvAfterFallback env key_file = some [] →
      startup env key_file = Except.error missingKeyMsg)
    ∧ (∀ k, getenvAfterFallback env key_file = some k → k ≠ [] →
      startup env key_file = Except.ok ⟨k⟩)
    ∧ (env = none → key_file = none →
      startup env key_file = Except.error missingKeyMsg)
    ∧ (∀ k, env = some k → k ≠ [] → startup env key_file = Except.ok ⟨k⟩)
    ∧ (∀ t, env = none → key_file = some t → pyStrip t ≠ [] →
      startup env key_file = Except.ok ⟨pyStrip t⟩) := by
  refine ⟨?_, ?_, ?_, ?_, ?_⟩
  · rintro (h | h) <;> unfold startup <;> rw [h]
    rfl
  · intro k hk hkne
    unfold startup
    rw [hk]
    show (if k = [] then Except.error missingKeyMsg
        else Except.ok (OpenAIClient.mk k)) = Except.ok (OpenAIClient.mk k)
    rw [if_neg hkne]
  · rintro rfl rfl
    rfl
  · rintro k rfl hkne
    show (if k = [] then Except.error missingKeyMsg
        else Except.ok (OpenAIClient.mk k)) = Except.ok (OpenAIClient.mk k)
    rw [if_neg hkne]
  · rintro t rfl rfl ht
    show (if pyStrip t = [] then Except.error missingKeyMsg
        else Except.ok (OpenAIClient.mk (pyStrip t)))
      = Except.ok (OpenAIClient.mk (pyStrip t))
    rw [if_neg ht]

/-- Claim C5 counterexample: the claim as stated promises no error when
either source provides the key.  With the environment variable set to
the empty string and the fallback file containing the key `"key"`, the
fallback file does provide a key, yet the startup cell raises: the
fallback only runs when the variable is `None`, and the truthiness check
`if not os.getenv(...)` treats the empty string as missing. -/
theorem startup_key_spec_cex :
    pyStrip "key".data ≠ []
    ∧ startup (some []) (some "key".data) = Except.error missingKeyMsg :=
  ⟨by decide, rfl⟩

/-- Claim C5 witness: both sources absent raises the fatal error; a set
nonempty environment variable yields a client. -/
theorem startup_key_spec_witness :
    (getenvAfterFallback none none = none ∨ getenvAfterFallback none none = some [] →
      startup (none : Option Str) (none : Option Str) = Except.error missingKeyMsg)
    ∧ (∀ k, getenvAfterFallback none none = some k → k ≠ [] →
      startup (none : Option Str) (none : Option Str) = Except.ok ⟨k⟩)
    ∧ ((none : Option Str) = none → (none : Option Str) = none →
      startup (none : Option Str) (none : Option Str) = Except.error missingKeyMsg)
    ∧ (∀ k, (none : Option Str) = some k → k ≠ [] →
      startup (none : Option Str) (none : Option Str) = Except.ok ⟨k⟩)
    ∧ (∀ t, (none : Option Str) = none → (none : Option Str) = some t →
        pyStrip t ≠ [] →
      startup (none : Option Str) (none : Option Str) = Except.ok ⟨pyStrip t⟩) :=
  startup_key_spec none none

/-! ### Lemmas: parse aborts -/

theorem parseLine_error_of_bad (decode : Str → Option Payload)
    (l : OutputLine) (h : lineBad decode l = true) :
    ∃ e, parseLine decode l = Except.error e := by
  unfold lineBad at h
  unfold parseLine
  cases hdec : decode l.content with
  | none => exact ⟨_, rfl⟩
  | some p =>
    rw [hdec] at h
    simp only [Option.isNone_some, Bool.false_or] at h
    cases hdc : decomposeId l.custom_id with
    | none => exact ⟨_, rfl⟩
    | some v =>
      rw [hdc] at h
      simp at h

theorem parse_batch_file_error_of_bad (decode : Str → Option Payload) :
    ∀ lines : List OutputLine, (∃ l ∈ lines, lineBad decode l = true) →
      ∃ e, parse_batch_file decode lines = Except.error e := by
  intro lines
  induction lines with
  | nil =>
    rintro ⟨l, hl, _⟩
    exact absurd hl (List.not_mem_nil l)
  | cons l0 rest ih =>
    rintro ⟨l, hl, hbad⟩
    rcases List.mem_cons.mp hl with rfl | hl'
    · rcases parseLine_error_of_bad decode l hbad with ⟨e, he⟩
      refine ⟨e, ?_⟩
      unfold parse_batch_file
      rw [he]
    · cases hpl : parseLine decode l0 with
      | error e =>
        refine ⟨e, ?_⟩
        unfold parse_batch_file
        rw [hpl]
      | ok r =>
        rcases ih ⟨l, hl', hbad⟩ with ⟨e, he⟩
        refine ⟨e, ?_⟩
        unfold parse_batch_file
        rw [hpl, he]

/-- Claim C9: a downloaded output file containing at least one line that
cannot be decomposed (its `custom_id`, after removing every occurrence
of `"claim"`, does not split on `"_"` into exactly two parts with an
integer first part) or whose payload is not valid JSON makes
`parse_batch_file` raise, and the call yields no result records at all
for that file — a single bad line aborts parsing of the entire file
rather than being skipped per-record. -/
theorem parse_batch_file_aborts (decode : Str → Option Payload)
    (lines : List OutputLine) (h : ∃ l ∈ lines, lineBad decode l = true) :
    (∃ e, parse_batch_file decode lines = Except.error e)
    ∧ ∀ rs, parse_batch_file decode lines ≠ Except.ok rs := by
  rcases parse_batch_file_error_of_bad decode lines h with ⟨e, he⟩
  refine ⟨⟨e, he⟩, ?_⟩
  intro rs hok
  rw [he] at hok
  exact Except.noConfusion hok

/-- Claim C9 witness: a one-line file whose `custom_id` `"x"` does not
split into two parts, with a decoder that accepts every payload; the
whole file errors and yields no rows. -/
theorem parse_batch_file_aborts_witness :
    (∃ e, parse_batch_file (fun _ => some default) [⟨['x'], ['y']⟩]
      = Except.error e)
    ∧ ∀ rs, parse_batch_file (fun _ => some default) [⟨['x'], ['y']⟩]
      ≠ Except.ok rs :=
  parse_batch_file_aborts (fun _ => some default) [⟨['x'], ['y']⟩]
    ⟨⟨['x'], ['y']⟩, List.mem_cons_self _ _, by decide⟩

-- sanity checks that the embedding evaluates inside the kernel
example : natDigits 407 = ['4', '0', '7'] := by decide
example : pyInt [' ', '-', '4', '2'] = some (-42) := by decide
example : pyInt ['4', 'x'] = none := by decide
example : splitOnChar '_' ['a', '_', 'b'] = [['a'], ['b']] := by decide
example : pyReplace 'c' ['l', 'a', 'i', 'm'] []
    ['c', 'l', 'a', 'i', 'm', '1', '_', 'c', 'l', 'a', 'i', 'm', 'x']
    = ['1', '_', 'x'] := by decide
example : ("ab".data) = ['a', 'b'] := by decide
example : containsSub 'c' ['l', 'a', 'i', 'm'] "Spanish".data = false := by decide
example : decomposeId "claim2_German".data = some (2, "German".data) := by decide
example : (buildJsonl df_claims TARGET_LANGS).length = 9 := by decide
example : (chunkParts 4 (List.replicate 8 ['x'])).map List.length = [3, 3, 2, 0] := by decide
